import Mathlib

/-!
Verification of the protocol-editor page logic
(`src/web/src/pages/ProtocolEditorPage.tsx`).

Strings are modelled as `List Char` (`Str`), so that the JavaScript
`String.prototype.split('\n')` / `Array.prototype.join('\n')` pair used by the
rich-text codec can be given a direct recursive definition.

The Slate document type is modelled after the data model of the spec (§3): a
document is a sequence of nodes, where each node is either a paragraph owning a
list of plain-text leaves, or a bare text leaf (the page's hard-coded default
description value `[{text: ''}]` is a bare leaf at top level).  `Node.string`
of the Slate library concatenates all leaf text below a node; restricted to
this document shape that is the `SlateNode.string` below.
-/

abbrev Str := List Char

/-- JS `s.split('\n')`, single-character separator: prepend `c` onto the first
chunk of an already-split tail. -/
def consHead (c : Char) : List Str → List Str
  | [] => [[c]]
  | l :: ls => (c :: l) :: ls

/-- JS `s.split('\n')`.  Always returns at least one chunk; chunks do not
contain `'\n'`. -/
def splitOnNl : Str → List Str
  | [] => [[]]
  | c :: s => if c = '\n' then [] :: splitOnNl s else consHead c (splitOnNl s)

/-- JS `chunks.join('\n')`. -/
def joinNl : List Str → Str
  | [] => []
  | [l] => l
  | l :: ls => l ++ '\n' :: joinNl ls

/-- A Slate node as this page uses them: a paragraph element whose children are
plain-text leaves, or a bare text leaf (spec §3; the default description value
`[{text: ''}]` is a bare top-level leaf). -/
inductive SlateNode where
  | leaf (text : Str)
  | paragraph (children : List Str)
  deriving DecidableEq, Repr

/-- Slate's `Node.string`: the concatenation of all leaf text below the node. -/
def SlateNode.string : SlateNode → Str
  | .leaf t => t
  | .paragraph cs => cs.flatten

/-- `serializeSlate` from the source: map `Node.string` over the top-level
nodes and join with `'\n'`. -/
def serializeSlate (value : List SlateNode) : Str :=
  joinNl (value.map SlateNode.string)

/-- `deserializeSlate` from the source: split on `'\n'` and wrap each line in a
paragraph holding a single leaf. -/
def deserializeSlate (str : Str) : List SlateNode :=
  (splitOnNl str).map fun line => .paragraph [line]

/-- Whether a node is a paragraph element. -/
def SlateNode.isParagraph : SlateNode → Bool
  | .leaf _ => false
  | .paragraph _ => true

/-- Whether a paragraph has exactly one leaf child. -/
def SlateNode.oneLeaf : SlateNode → Bool
  | .leaf _ => false
  | .paragraph cs => cs.length == 1

/-- Whether no leaf text below the node contains a newline character. -/
def SlateNode.nlFree : SlateNode → Bool
  | .leaf t => t.all (fun c => c != '\n')
  | .paragraph cs => cs.all (fun t => t.all (fun c => c != '\n'))

/-- Modelled from the spec: `normalize` of testable property 1 (there is no
`normalize` in the source).  It "collapses multi-leaf paragraphs to one leaf by
concatenation"; nodes that are not paragraphs are left unchanged. -/
def normalizeDoc (d : List SlateNode) : List SlateNode :=
  d.map fun n =>
    match n with
    | .leaf t => .leaf t
    | .paragraph cs => .paragraph [cs.flatten]

/-- A block definition as created by the "add section" menu: a client-generated
identity token and a block-type tag.  Type-specific fields are owned by the
block-editing collaborator (spec §3) and do not affect any claim. -/
structure BlockDefinition where
  id : Str
  type : Str
  deriving DecidableEq, Repr

/-- A protocol record (`src/web/src/models/protocol` is not part of the given
sources; the shape is modelled from spec §3: an optional numeric id, a name
string, a description persisted as a single string, and an ordered block
list). -/
structure Protocol where
  id : Option Nat
  name : Str
  description : Str
  blocks : List BlockDefinition
  deriving DecidableEq, Repr

/-- JS truthiness of the optional numeric id: `null`/`undefined`/`NaN` (here
`none`) and `0` are falsy. -/
def idTruthy : Option Nat → Bool
  | none => false
  | some n => n != 0

/-- The tail `(protocol && protocol.name) || ""` of the name fallback chain:
a missing record is falsy, and an empty record name is falsy but already equals
the final `""` default. -/
def currentNameFallback : Option Protocol → Str
  | some p => p.name
  | none => []

/-- `currentName`: `name || (protocol && protocol.name) || ""`.  `none` models
a null overlay; the empty string is falsy, so an empty overlay or record name
falls through. -/
def currentName (name : Option Str) (protocol : Option Protocol) : Str :=
  match name with
  | some n => if n = [] then currentNameFallback protocol else n
  | none => currentNameFallback protocol

/-- `currentDescription`:
`description || (protocol && protocol.description && deserializeSlate(protocol.description)) || [{text: ''}]`.
A non-null overlay is an array, hence truthy even when empty; an empty record
description string is falsy and falls through to the default `[{text: ''}]`
(`deserializeSlate` output is a nonempty array, hence truthy). -/
def currentDescription (description : Option (List SlateNode)) (protocol : Option Protocol) :
    List SlateNode :=
  match description with
  | some d => d
  | none =>
    match protocol with
    | some p =>
      if p.description = [] then [SlateNode.leaf []] else deserializeSlate p.description
    | none => [SlateNode.leaf []]

/-- `currentBlocks`: `blocks || (protocol && protocol.blocks) || []`.  Arrays
are truthy in JS even when empty, so a non-null overlay always wins and a
present record always supplies its block list. -/
def currentBlocks (blocks : Option (List BlockDefinition)) (protocol : Option Protocol) :
    List BlockDefinition :=
  match blocks with
  | some bs => bs
  | none =>
    match protocol with
    | some p => p.blocks
    | none => []

/-- `updateBlock` from the source (the branch where the callback's block is
defined): replace every list element whose id matches the updated block's id. -/
def updateBlock (blocks : List BlockDefinition) (block : BlockDefinition) :
    List BlockDefinition :=
  blocks.map fun b => if b.id = block.id then block else b

/-- `moveBlock` from the source: splice the element out at `dragIndex` and
splice it back in at `hoverIndex`.  When `dragIndex` is out of range the JS
code reads `undefined` and inserts it; the spec (§4.2) declares out-of-range
indices a precondition violation, and no claim exercises that branch, which we
model as the unchanged list. -/
def moveBlock (blocks : List BlockDefinition) (dragIndex hoverIndex : Nat) :
    List BlockDefinition :=
  match blocks[dragIndex]? with
  | some dragBlock => (blocks.eraseIdx dragIndex).insertIdx hoverIndex dragBlock
  | none => blocks

/-- The `hover` callback of `ProtocolDraggableBlock` (with `ref.current`
mounted): inputs are the dragged item's recorded index `item.index`, the
hovered item's `index`, the hovered box's `top`/`bottom`, the pointer's
client `y`, and the current block list.  The result is the new recorded
`item.index`, the new block list, and whether `moveBlock` was invoked.
Pixel coordinates are modelled as rationals. -/
def hover (dragIndex index : Nat) (top bottom y : Rat) (blocks : List BlockDefinition) :
    Nat × List BlockDefinition × Bool :=
  if dragIndex = index then (dragIndex, blocks, false)
  else
    let hoverMiddleY := (bottom - top) / 2
    let hoverClientY := y - top
    if dragIndex < index ∧ hoverClientY < hoverMiddleY then (dragIndex, blocks, false)
    else if dragIndex > index ∧ hoverClientY > hoverMiddleY then (dragIndex, blocks, false)
    else (index, moveBlock blocks dragIndex index, true)

/-- The observable state touched by a save: the `formSaving` flag, the
`formSavedTime` stamp, and the Recoil `protocolsState` cache (a `Map` from
protocol id to record, modelled as an association list where the most recent
insert is found first). -/
structure SaveState where
  formSaving : Bool
  formSavedTime : Option Str
  protocolCache : List (Nat × Protocol)
  deriving DecidableEq, Repr

/-- `Map.prototype.set`: the new entry shadows any older entry for the key. -/
def cacheSet (cache : List (Nat × Protocol)) (k : Nat) (v : Protocol) :
    List (Nat × Protocol) :=
  (k, v) :: cache

/-- `Map.prototype.get`. -/
def cacheGet (cache : List (Nat × Protocol)) (k : Nat) : Option Protocol :=
  (cache.find? fun e => e.1 == k).map Prod.snd

/-- The request handed to `apiFetch`: method, path and the outgoing record. -/
structure UpsertRequest where
  method : Str
  path : Str
  record : Protocol
  deriving DecidableEq, Repr

/-- The method/path selection of `protocolUpsert`:
`protocol.id ? "PUT" : "POST"` and
`protocol.id ? "protocol/" + id : "protocol"` (JS number truthiness: a
missing id or the id `0` selects the create path). -/
def mkUpsertRequest (protocol : Protocol) : UpsertRequest :=
  match protocol.id with
  | some k =>
    if k ≠ 0 then
      { method := ['P', 'U', 'T']
        path := ['p', 'r', 'o', 't', 'o', 'c', 'o', 'l', '/'] ++ Nat.toDigits 10 k
        record := protocol }
    else
      { method := ['P', 'O', 'S', 'T']
        path := ['p', 'r', 'o', 't', 'o', 'c', 'o', 'l']
        record := protocol }
  | none =>
    { method := ['P', 'O', 'S', 'T']
      path := ['p', 'r', 'o', 't', 'o', 'c', 'o', 'l']
      record := protocol }

/-- How a save attempt ends when it does not succeed. -/
inductive SaveError where
  | transport
  | missingId
  deriving DecidableEq, Repr

/-- `protocolUpsert` from the source.  `api` models the `apiFetch`
collaborator: it either resolves with the server's record or throws
(`Except.error`).  The body sets `formSaving := true`, awaits the upsert, and
on a response whose id is truthy writes the record into the cache keyed by
that id, otherwise throws `"Received a protocol without an ID from server!"`;
the `finally` step clears `formSaving` and stamps `formSavedTime := now`
(`moment().format()`) on every path.  The second component is the attempt's
outcome as seen by the caller. -/
def protocolUpsert (api : UpsertRequest → Except Unit Protocol)
    (state : SaveState) (protocol : Protocol) (now : Str) :
    SaveState × Except SaveError Unit :=
  let tryResult : Except SaveError (List (Nat × Protocol)) :=
    match api (mkUpsertRequest protocol) with
    | .error _ => .error .transport
    | .ok created =>
      match created.id with
      | some k =>
        if k ≠ 0 then .ok (cacheSet state.protocolCache k created)
        else .error .missingId
      | none => .error .missingId
  ({ formSaving := false
     formSavedTime := some now
     protocolCache :=
       match tryResult with
       | .ok c => c
       | .error _ => state.protocolCache },
   tryResult.map fun _ => ())

/-- The record built by the save button's `onClick`: the route id, the
displayed name and blocks, and the serialized displayed description. -/
def saveButtonProtocol (routeId : Option Nat) (name : Option Str)
    (description : Option (List SlateNode)) (blocks : Option (List BlockDefinition))
    (protocol : Option Protocol) : Protocol :=
  { id := routeId
    name := currentName name protocol
    description := serializeSlate (currentDescription description protocol)
    blocks := currentBlocks blocks protocol }

theorem splitOnNl_ne_nil (s : Str) : splitOnNl s ≠ [] := by
  cases s with
  | nil => simp [splitOnNl]
  | cons c s =>
    simp only [splitOnNl]
    split
    · simp
    · cases h : splitOnNl s <;> simp [consHead]

theorem joinNl_cons_cons (l l' : Str) (ls : List Str) :
    joinNl (l :: l' :: ls) = l ++ '\n' :: joinNl (l' :: ls) := rfl

theorem splitOnNl_cons_nl (s : Str) : splitOnNl ('\n' :: s) = [] :: splitOnNl s := by
  simp [splitOnNl]

theorem splitOnNl_cons_of_ne (c : Char) (s : Str) (hc : c ≠ '\n') :
    splitOnNl (c :: s) = consHead c (splitOnNl s) := by
  simp [splitOnNl, hc]

/-- Splitting on newlines and joining the chunks back with newlines is the
identity on strings. -/
theorem joinNl_splitOnNl (s : Str) : joinNl (splitOnNl s) = s := by
  induction s with
  | nil => rfl
  | cons c s ih =>
    by_cases hc : c = '\n'
    · subst hc
      rw [splitOnNl_cons_nl]
      cases h : splitOnNl s with
      | nil => exact absurd h (splitOnNl_ne_nil s)
      | cons l ls =>
        rw [h] at ih
        rw [joinNl_cons_cons, List.nil_append, ih]
    · rw [splitOnNl_cons_of_ne c s hc]
      cases h : splitOnNl s with
      | nil => exact absurd h (splitOnNl_ne_nil s)
      | cons l ls =>
        rw [h] at ih
        cases ls with
        | nil =>
          simp only [joinNl] at ih
          simp [consHead, joinNl, ih]
        | cons l' ls' =>
          rw [joinNl_cons_cons] at ih
          simp [consHead, joinNl_cons_cons, ih]

theorem splitOnNl_nlFree (l : Str) (h : '\n' ∉ l) : splitOnNl l = [l] := by
  induction l with
  | nil => rfl
  | cons c s ih =>
    have hc : ¬c = '\n' := fun hc => h (hc ▸ List.mem_cons_self c s)
    have hs : '\n' ∉ s := fun hm => h (List.mem_cons_of_mem c hm)
    rw [splitOnNl_cons_of_ne c s hc, ih hs]
    rfl

theorem splitOnNl_append_nl (l t : Str) (h : '\n' ∉ l) :
    splitOnNl (l ++ '\n' :: t) = l :: splitOnNl t := by
  induction l with
  | nil => simp [splitOnNl]
  | cons c s ih =>
    have hc : ¬c = '\n' := fun hc => h (hc ▸ List.mem_cons_self c s)
    have hs : '\n' ∉ s := fun hm => h (List.mem_cons_of_mem c hm)
    rw [List.cons_append, splitOnNl_cons_of_ne c _ hc, ih hs]
    rfl

/-- Joining newline-free chunks with newlines and re-splitting recovers the
chunks, provided there is at least one chunk. -/
theorem splitOnNl_joinNl (ls : List Str) (hne : ls ≠ [])
    (h : ∀ l ∈ ls, '\n' ∉ l) : splitOnNl (joinNl ls) = ls := by
  induction ls with
  | nil => exact absurd rfl hne
  | cons l ls ih =>
    cases ls with
    | nil =>
      simp only [joinNl]
      exact splitOnNl_nlFree l (h l (List.mem_cons_self l []))
    | cons l' ls' =>
      rw [joinNl_cons_cons,
        splitOnNl_append_nl l _ (h l (List.mem_cons_self l _)),
        ih (by simp) (fun x hx => h x (List.mem_cons_of_mem l hx))]

theorem nlFree_string (n : SlateNode) (h : n.nlFree = true) : '\n' ∉ n.string := by
  intro hm
  cases n with
  | leaf t =>
    rw [SlateNode.nlFree, List.all_eq_true] at h
    have := h '\n' hm
    simp at this
  | paragraph cs =>
    rw [SlateNode.nlFree, List.all_eq_true] at h
    simp only [SlateNode.string, List.mem_flatten] at hm
    obtain ⟨t, ht, hc⟩ := hm
    have ht' := h t ht
    rw [List.all_eq_true] at ht'
    have := ht' '\n' hc
    simp at this

/-- C10: for every string `s` (newlines and the empty string included),
`serializeSlate (deserializeSlate s) = s` — the string-side round trip of the
codec is the identity. -/
theorem serialize_deserialize_id (s : Str) : serializeSlate (deserializeSlate s) = s := by
  unfold serializeSlate deserializeSlate
  rw [List.map_map]
  have h : (SlateNode.string ∘ fun line => SlateNode.paragraph [line]) =
      fun line : Str => line := by
    funext l
    simp [SlateNode.string]
  rw [h]
  rw [show ((splitOnNl s).map fun line : Str => line) = splitOnNl s from
    List.map_id (splitOnNl s)]
  exact joinNl_splitOnNl s

/-- C7 (counterexample): the claim fails as stated.  The document consisting of
one paragraph with the single leaf `"a\nb"` has exactly one leaf per paragraph,
yet deserializing its serialization yields two paragraphs, which is neither the
document itself nor its normalization. -/
theorem deserialize_serialize_counterexample :
    ([SlateNode.paragraph [['a', '\n', 'b']]].all SlateNode.oneLeaf = true) ∧
    deserializeSlate (serializeSlate [SlateNode.paragraph [['a', '\n', 'b']]]) =
      [SlateNode.paragraph [['a']], SlateNode.paragraph [['b']]] ∧
    deserializeSlate (serializeSlate [SlateNode.paragraph [['a', '\n', 'b']]]) ≠
      [SlateNode.paragraph [['a', '\n', 'b']]] ∧
    deserializeSlate (serializeSlate [SlateNode.paragraph [['a', '\n', 'b']]]) ≠
      normalizeDoc [SlateNode.paragraph [['a', '\n', 'b']]] := by
  decide

/-- C7 (amended): for every nonempty document all of whose nodes are
paragraphs and whose leaves contain no newline character,
`deserializeSlate (serializeSlate d) = normalizeDoc d`; when additionally every
paragraph has exactly one leaf child the round trip is the identity. -/
theorem deserialize_serialize (d : List SlateNode) (hne : d ≠ [])
    (hpar : ∀ n ∈ d, n.isParagraph = true)
    (hnl : ∀ n ∈ d, n.nlFree = true) :
    deserializeSlate (serializeSlate d) = normalizeDoc d ∧
    ((∀ n ∈ d, n.oneLeaf = true) → deserializeSlate (serializeSlate d) = d) := by
  have hsplit : splitOnNl (joinNl (d.map SlateNode.string)) = d.map SlateNode.string := by
    refine splitOnNl_joinNl _ (by simpa using hne) ?_
    intro l hl
    rw [List.mem_map] at hl
    obtain ⟨n, hn, rfl⟩ := hl
    exact nlFree_string n (hnl n hn)
  have hmain : deserializeSlate (serializeSlate d) = normalizeDoc d := by
    unfold deserializeSlate serializeSlate normalizeDoc
    rw [hsplit, List.map_map]
    refine List.map_congr_left ?_
    intro n hn
    have hp := hpar n hn
    cases n with
    | leaf t => simp [SlateNode.isParagraph] at hp
    | paragraph cs => simp [SlateNode.string]
  refine ⟨hmain, fun hone => ?_⟩
  rw [hmain]
  calc normalizeDoc d = d.map (fun n => n) := by
        unfold normalizeDoc
        refine List.map_congr_left ?_
        intro n hn
        have h1 := hone n hn
        cases n with
        | leaf t => simp [SlateNode.oneLeaf] at h1
        | paragraph cs =>
          rw [SlateNode.oneLeaf, beq_iff_eq] at h1
          obtain ⟨t, rfl⟩ := List.length_eq_one.mp h1
          simp
    _ = d := List.map_id d

/-- C7 (amended, witness): concrete instances of both conclusions. -/
theorem deserialize_serialize_witness :
    deserializeSlate (serializeSlate [SlateNode.paragraph [['a'], ['b']]]) =
      normalizeDoc [SlateNode.paragraph [['a'], ['b']]] ∧
    deserializeSlate (serializeSlate [SlateNode.paragraph [['a', 'b']]]) =
      [SlateNode.paragraph [['a', 'b']]] :=
  ⟨(deserialize_serialize [SlateNode.paragraph [['a'], ['b']]] (by decide)
      (by decide) (by decide)).1,
   (deserialize_serialize [SlateNode.paragraph [['a', 'b']]] (by decide)
      (by decide) (by decide)).2 (by decide)⟩

/-- C4: for in-range `fromIndex` and `toIndex`, `moveBlock` keeps the length,
keeps the multiset of identity tokens, and puts the moved element (hence its
token) at position `toIndex` of the result. -/
theorem moveBlock_spec (blocks : List BlockDefinition) (fromIndex toIndex : Nat)
    (hf : fromIndex < blocks.length) (ht : toIndex < blocks.length) :
    (moveBlock blocks fromIndex toIndex).length = blocks.length ∧
    (↑((moveBlock blocks fromIndex toIndex).map BlockDefinition.id) : Multiset Str) =
      ↑(blocks.map BlockDefinition.id) ∧
    (moveBlock blocks fromIndex toIndex)[toIndex]? = blocks[fromIndex]? := by
  have hb : blocks[fromIndex]? = some blocks[fromIndex] := List.getElem?_eq_getElem hf
  have hmv : moveBlock blocks fromIndex toIndex =
      (blocks.eraseIdx fromIndex).insertIdx toIndex blocks[fromIndex] := by
    unfold moveBlock
    rw [hb]
  have h1 : (blocks.eraseIdx fromIndex).length + 1 = blocks.length :=
    List.length_eraseIdx_add_one hf
  have hto : toIndex ≤ (blocks.eraseIdx fromIndex).length := by omega
  have hlen : (moveBlock blocks fromIndex toIndex).length = blocks.length := by
    rw [hmv, List.length_insertIdx _ _ hto]
    omega
  have hperm : (moveBlock blocks fromIndex toIndex).Perm blocks := by
    rw [hmv]
    refine (List.perm_insertIdx _ _ hto).trans ?_
    rw [List.eraseIdx_eq_take_drop_succ]
    refine List.perm_middle.symm.trans ?_
    rw [List.getElem_cons_drop blocks fromIndex hf, List.take_append_drop]
  refine ⟨hlen, ?_, ?_⟩
  · exact Multiset.coe_eq_coe.mpr (hperm.map BlockDefinition.id)
  · rw [hmv, hb]
    rw [List.getElem?_eq_getElem (by rw [List.length_insertIdx _ _ hto]; omega)]
    rw [List.getElem_insertIdx_self _ _ _ hto]

/-- C4 (witness): moving the head of a three-block list to position 2. -/
theorem moveBlock_spec_witness :
    (moveBlock [⟨['a'], ['t']⟩, ⟨['b'], ['t']⟩, ⟨['c'], ['t']⟩] 0 2).length = 3 ∧
    (↑((moveBlock [⟨['a'], ['t']⟩, ⟨['b'], ['t']⟩, ⟨['c'], ['t']⟩] 0 2).map
        BlockDefinition.id) : Multiset Str) =
      ↑([⟨['a'], ['t']⟩, ⟨['b'], ['t']⟩, (⟨['c'], ['t']⟩ : BlockDefinition)].map
        BlockDefinition.id) ∧
    (moveBlock [⟨['a'], ['t']⟩, ⟨['b'], ['t']⟩, ⟨['c'], ['t']⟩] 0 2)[2]? =
      [⟨['a'], ['t']⟩, ⟨['b'], ['t']⟩, (⟨['c'], ['t']⟩ : BlockDefinition)][0]? :=
  moveBlock_spec [⟨['a'], ['t']⟩, ⟨['b'], ['t']⟩, ⟨['c'], ['t']⟩] 0 2
    (by decide) (by decide)

/-- C8: updating with a block whose identity token matches no list element is a
silent no-op; with identity tokens pairwise distinct (the data-model invariant
of spec §3), a matching token replaces exactly the matching element and leaves
every other position unchanged. -/
theorem updateBlock_spec (blocks : List BlockDefinition) (updated : BlockDefinition) :
    (updated.id ∉ blocks.map BlockDefinition.id → updateBlock blocks updated = blocks) ∧
    ((blocks.map BlockDefinition.id).Nodup →
      ∀ i, ∀ hi : i < blocks.length, blocks[i].id = updated.id →
        (updateBlock blocks updated).length = blocks.length ∧
        (updateBlock blocks updated)[i]? = some updated ∧
        ∀ j, j ≠ i → (updateBlock blocks updated)[j]? = blocks[j]?) := by
  constructor
  · intro hnm
    unfold updateBlock
    calc blocks.map (fun b => if b.id = updated.id then updated else b)
        = blocks.map (fun b => b) := by
          refine List.map_congr_left ?_
          intro b hb
          have hne : b.id ≠ updated.id := fun he =>
            hnm (he ▸ List.mem_map_of_mem BlockDefinition.id hb)
          simp [hne]
      _ = blocks := List.map_id blocks
  · intro hnd i hi hid
    have hmlen : i < (blocks.map BlockDefinition.id).length := by simpa using hi
    refine ⟨by simp [updateBlock], ?_, ?_⟩
    · rw [updateBlock, List.getElem?_map, List.getElem?_eq_getElem hi]
      simp [hid]
    · intro j hj
      rw [updateBlock, List.getElem?_map]
      by_cases hjl : j < blocks.length
      · have hjm : j < (blocks.map BlockDefinition.id).length := by simpa using hjl
        rw [List.getElem?_eq_getElem hjl]
        have hne : blocks[j].id ≠ updated.id := by
          intro he
          refine hj ?_
          have hij : (blocks.map BlockDefinition.id).get ⟨j, hjm⟩ =
              (blocks.map BlockDefinition.id).get ⟨i, hmlen⟩ := by
            simp only [List.get_eq_getElem, List.getElem_map]
            rw [he, hid]
          exact congrArg Fin.val ((List.Nodup.get_inj_iff hnd).mp hij)
        simp [hne]
      · rw [List.getElem?_eq_none (by omega)]
        rfl

/-- C8 (witness): a no-op update for an unknown token, and an exact single
replacement for a known one. -/
theorem updateBlock_spec_witness :
    updateBlock [⟨['a'], ['t']⟩, ⟨['b'], ['t']⟩] ⟨['x'], ['u']⟩ =
      [⟨['a'], ['t']⟩, ⟨['b'], ['t']⟩] ∧
    (updateBlock [⟨['a'], ['t']⟩, ⟨['b'], ['t']⟩] ⟨['b'], ['u']⟩)[1]? =
      some ⟨['b'], ['u']⟩ ∧
    (updateBlock [⟨['a'], ['t']⟩, ⟨['b'], ['t']⟩] ⟨['b'], ['u']⟩)[0]? =
      [⟨['a'], ['t']⟩, (⟨['b'], ['t']⟩ : BlockDefinition)][0]? :=
  ⟨(updateBlock_spec [⟨['a'], ['t']⟩, ⟨['b'], ['t']⟩] ⟨['x'], ['u']⟩).1 (by decide),
   ((updateBlock_spec [⟨['a'], ['t']⟩, ⟨['b'], ['t']⟩] ⟨['b'], ['u']⟩).2 (by decide)
      1 (by decide) (by decide)).2.1,
   ((updateBlock_spec [⟨['a'], ['t']⟩, ⟨['b'], ['t']⟩] ⟨['b'], ['u']⟩).2 (by decide)
      1 (by decide) (by decide)).2.2 0 (by decide)⟩

/-- C3: for a hover event with `dragIndex ≠ index`, no move happens when
dragging downward with the pointer still above the midpoint or dragging upward
with the pointer still below it; in every other case `moveBlock blocks
dragIndex index` is performed and the recorded origin index becomes `index`. -/
theorem hover_spec (dragIndex index : Nat) (top bottom y : Rat)
    (blocks : List BlockDefinition) (hne : dragIndex ≠ index) :
    (dragIndex < index → y - top < (bottom - top) / 2 →
      hover dragIndex index top bottom y blocks = (dragIndex, blocks, false)) ∧
    (dragIndex > index → y - top > (bottom - top) / 2 →
      hover dragIndex index top bottom y blocks = (dragIndex, blocks, false)) ∧
    (¬(dragIndex < index ∧ y - top < (bottom - top) / 2) →
      ¬(dragIndex > index ∧ y - top > (bottom - top) / 2) →
      hover dragIndex index top bottom y blocks =
        (index, moveBlock blocks dragIndex index, true)) := by
  refine ⟨fun hlt hy => ?_, fun hgt hy => ?_, fun hno1 hno2 => ?_⟩
  · rw [hover, if_neg hne, if_pos ⟨hlt, hy⟩]
  · rw [hover, if_neg hne, if_neg (by rintro ⟨h1, _⟩; omega), if_pos ⟨hgt, hy⟩]
  · rw [hover, if_neg hne, if_neg hno1, if_neg hno2]

/-- C3 (witness): dragging downward above the midpoint does nothing; past the
midpoint it moves and re-records the origin index. -/
theorem hover_spec_witness :
    hover 0 1 0 10 2 [⟨['a'], ['t']⟩, ⟨['b'], ['t']⟩] =
      (0, [⟨['a'], ['t']⟩, ⟨['b'], ['t']⟩], false) ∧
    hover 0 1 0 10 7 [⟨['a'], ['t']⟩, ⟨['b'], ['t']⟩] =
      (1, moveBlock [⟨['a'], ['t']⟩, ⟨['b'], ['t']⟩] 0 1, true) :=
  ⟨(hover_spec 0 1 0 10 2 [⟨['a'], ['t']⟩, ⟨['b'], ['t']⟩] (by decide)).1
      (by decide) (by norm_num),
   (hover_spec 0 1 0 10 7 [⟨['a'], ['t']⟩, ⟨['b'], ['t']⟩] (by decide)).2.2
      (by rintro ⟨-, h⟩; norm_num at h) (by rintro ⟨h, -⟩; omega)⟩

/-- C6: a second hover invocation with the pointer stationary at the same
offset over the same item never performs a further move — whatever the first
invocation did, the second leaves the recorded index and the block list
unchanged and does not invoke `moveBlock`. -/
theorem hover_idem (dragIndex index : Nat) (top bottom y : Rat)
    (blocks : List BlockDefinition) :
    hover (hover dragIndex index top bottom y blocks).1 index top bottom y
        (hover dragIndex index top bottom y blocks).2.1 =
      ((hover dragIndex index top bottom y blocks).1,
        (hover dragIndex index top bottom y blocks).2.1, false) := by
  unfold hover
  by_cases h0 : dragIndex = index
  · simp [h0]
  · rw [if_neg h0]
    by_cases h1 : dragIndex < index ∧ y - top < (bottom - top) / 2
    · rw [if_pos h1]
      simp only
      rw [if_neg h0, if_pos h1]
    · rw [if_neg h1]
      by_cases h2 : dragIndex > index ∧ y - top > (bottom - top) / 2
      · rw [if_pos h2]
        simp only
        rw [if_neg h0, if_neg h1, if_pos h2]
      · rw [if_neg h2]
        simp

/-- C1 (counterexample): the claim fails as stated.  With the overlay name set
to the empty string (a non-null overlay value) and a cached record named "A",
the displayed name is "A", not the overlay's empty string: JS `||` treats the
empty string as falsy. -/
theorem currentValue_counterexample :
    currentName (some []) (some ⟨some 1, ['A'], [], []⟩) = ['A'] ∧
    (['A'] : Str) ≠ [] := by
  decide

/-- C1 (amended): the displayed value is the overlay value for any non-null
description or blocks overlay (empty sequences included) and for any non-empty
name overlay; an empty-string name overlay behaves exactly as no overlay.
Without an overlay, the displayed name and blocks come from the cached record
when present (else the empty defaults), and the displayed description is the
deserialized record description when that string is non-empty, else the
hard-coded `[{text: ''}]` default. -/
theorem currentValue_spec :
    (∀ (d : List SlateNode) (protocol : Option Protocol),
      currentDescription (some d) protocol = d) ∧
    (∀ (bs : List BlockDefinition) (protocol : Option Protocol),
      currentBlocks (some bs) protocol = bs) ∧
    (∀ (n : Str) (protocol : Option Protocol), n ≠ [] →
      currentName (some n) protocol = n) ∧
    (∀ protocol : Option Protocol,
      currentName (some []) protocol = currentName none protocol) ∧
    (∀ p : Protocol, currentName none (some p) = p.name) ∧
    currentName none none = [] ∧
    (∀ p : Protocol, currentBlocks none (some p) = p.blocks) ∧
    currentBlocks none none = [] ∧
    (∀ p : Protocol, p.description ≠ [] →
      currentDescription none (some p) = deserializeSlate p.description) ∧
    (∀ p : Protocol, p.description = [] →
      currentDescription none (some p) = [SlateNode.leaf []]) ∧
    currentDescription none none = [SlateNode.leaf []] := by
  refine ⟨fun d protocol => rfl, fun bs protocol => rfl, fun n protocol hn => ?_,
    fun protocol => ?_, fun p => rfl, rfl, fun p => rfl, rfl,
    fun p hd => ?_, fun p hd => ?_, rfl⟩
  · simp [currentName, hn]
  · simp [currentName]
  · simp [currentDescription, hd]
  · simp [currentDescription, hd]

/-- C1 (amended, witness): concrete instances — an empty blocks overlay wins,
a non-empty name overlay wins, an empty name overlay falls back to the cached
record's name. -/
theorem currentValue_spec_witness :
    currentBlocks (some []) (some ⟨some 1, ['A'], [], [⟨['x'], ['t']⟩]⟩) = [] ∧
    currentName (some ['B']) (some ⟨some 1, ['A'], [], []⟩) = ['B'] ∧
    currentDescription (some []) none = [] ∧
    currentName (some []) (some ⟨some 1, ['A'], [], []⟩) =
      currentName none (some ⟨some 1, ['A'], [], []⟩) ∧
    currentDescription none (some ⟨some 1, ['A'], ['d'], []⟩) =
      deserializeSlate ['d'] :=
  ⟨currentValue_spec.2.1 [] (some ⟨some 1, ['A'], [], [⟨['x'], ['t']⟩]⟩),
   currentValue_spec.2.2.1 ['B'] (some ⟨some 1, ['A'], [], []⟩) (by decide),
   currentValue_spec.1 [] none,
   currentValue_spec.2.2.2.1 (some ⟨some 1, ['A'], [], []⟩),
   currentValue_spec.2.2.2.2.2.2.2.2.1 ⟨some 1, ['A'], ['d'], []⟩ (by decide)⟩

/-- C9 (counterexample): the claim fails as stated.  The hard-coded default
description value is a bare empty leaf `[{text: ''}]`, which is not the
one-paragraph one-empty-leaf document that `deserializeSlate ""` yields. -/
theorem defaultDescription_counterexample :
    currentDescription none none = [SlateNode.leaf []] ∧
    deserializeSlate [] = [SlateNode.paragraph [[]]] ∧
    currentDescription none none ≠ deserializeSlate [] := by
  decide

/-- C9 (amended): when the description overlay is null and the record supplies
no description (or no record is cached), the displayed document is the
hard-coded `[{text: ''}]` — a single bare empty leaf, which differs from
`deserializeSlate ""`; `deserializeSlate ""` itself is the one-paragraph
one-empty-leaf document. -/
theorem defaultDescription_spec (p : Protocol) (h : p.description = []) :
    currentDescription none (some p) = [SlateNode.leaf []] ∧
    currentDescription none none = [SlateNode.leaf []] ∧
    deserializeSlate [] = [SlateNode.paragraph [[]]] ∧
    ([SlateNode.leaf []] : List SlateNode) ≠ [SlateNode.paragraph [[]]] := by
  exact ⟨by simp [currentDescription, h], rfl, by decide, by decide⟩

/-- C9 (amended, witness): the default at a concrete record with an empty
description string. -/
theorem defaultDescription_spec_witness :
    currentDescription none (some ⟨some 1, ['A'], [], []⟩) = [SlateNode.leaf []] ∧
    deserializeSlate [] = [SlateNode.paragraph [[]]] :=
  ⟨(defaultDescription_spec ⟨some 1, ['A'], [], []⟩ rfl).1,
   (defaultDescription_spec ⟨some 1, ['A'], [], []⟩ rfl).2.2.1⟩

/-- C2: whatever the upsert's outcome — success, a response without an id, or
a transport failure — the `finally` step clears `formSaving` and stamps
`formSavedTime` with the current time; and when the response record lacks an
id, the attempt ends in the missing-id error with no cache write. -/
theorem protocolUpsert_cleanup (api : UpsertRequest → Except Unit Protocol)
    (state : SaveState) (protocol : Protocol) (now : Str) :
    ((protocolUpsert api state protocol now).1.formSaving = false ∧
      (protocolUpsert api state protocol now).1.formSavedTime = some now) ∧
    (∀ created, api (mkUpsertRequest protocol) = .ok created → created.id = none →
      (protocolUpsert api state protocol now).2 = .error .missingId ∧
      (protocolUpsert api state protocol now).1.protocolCache = state.protocolCache) := by
  refine ⟨⟨rfl, rfl⟩, ?_⟩
  intro created hapi hid
  constructor
  · simp [protocolUpsert, hapi, hid, Except.map]
  · simp [protocolUpsert, hapi, hid]

/-- C2 (witness): a malformed response (no id) at concrete inputs. -/
theorem protocolUpsert_cleanup_witness :
    (protocolUpsert (fun _ => .ok ⟨none, [], [], []⟩) ⟨true, none, []⟩
        ⟨none, [], [], []⟩ ['n']).1.formSaving = false ∧
    (protocolUpsert (fun _ => .ok ⟨none, [], [], []⟩) ⟨true, none, []⟩
        ⟨none, [], [], []⟩ ['n']).1.formSavedTime = some ['n'] ∧
    (protocolUpsert (fun _ => .ok ⟨none, [], [], []⟩) ⟨true, none, []⟩
        ⟨none, [], [], []⟩ ['n']).2 = .error .missingId ∧
    (protocolUpsert (fun _ => .ok ⟨none, [], [], []⟩) ⟨true, none, []⟩
        ⟨none, [], [], []⟩ ['n']).1.protocolCache = [] :=
  ⟨(protocolUpsert_cleanup (fun _ => .ok ⟨none, [], [], []⟩) ⟨true, none, []⟩
      ⟨none, [], [], []⟩ ['n']).1.1,
   (protocolUpsert_cleanup (fun _ => .ok ⟨none, [], [], []⟩) ⟨true, none, []⟩
      ⟨none, [], [], []⟩ ['n']).1.2,
   ((protocolUpsert_cleanup (fun _ => .ok ⟨none, [], [], []⟩) ⟨true, none, []⟩
      ⟨none, [], [], []⟩ ['n']).2 ⟨none, [], [], []⟩ rfl rfl).1,
   ((protocolUpsert_cleanup (fun _ => .ok ⟨none, [], [], []⟩) ⟨true, none, []⟩
      ⟨none, [], [], []⟩ ['n']).2 ⟨none, [], [], []⟩ rfl rfl).2⟩

/-- C5 (counterexample): the claim fails as stated.  A protocol whose id is
present but `0` is sent with the create verb and collection path, because JS
number truthiness treats `0` like a missing id. -/
theorem upsertRequest_counterexample :
    (mkUpsertRequest ⟨some 0, [], [], []⟩).method = ['P', 'O', 'S', 'T'] ∧
    (mkUpsertRequest ⟨some 0, [], [], []⟩).path =
      ['p', 'r', 'o', 't', 'o', 'c', 'o', 'l'] ∧
    (['P', 'O', 'S', 'T'] : Str) ≠ ['P', 'U', 'T'] := by
  decide

/-- C5 (amended): an absent or zero id selects POST to "protocol"; a present
nonzero id `k` selects PUT to "protocol/<k>"; the outgoing record's
description is the serialization of the displayed document; and a success
response carrying a nonzero id `k` leaves the cache mapping `k` to the
returned record. -/
theorem upsertRequest_spec :
    (∀ protocol : Protocol, protocol.id = none ∨ protocol.id = some 0 →
      mkUpsertRequest protocol =
        ⟨['P', 'O', 'S', 'T'], ['p', 'r', 'o', 't', 'o', 'c', 'o', 'l'], protocol⟩) ∧
    (∀ (protocol : Protocol) (k : Nat), protocol.id = some k → k ≠ 0 →
      mkUpsertRequest protocol =
        ⟨['P', 'U', 'T'],
          ['p', 'r', 'o', 't', 'o', 'c', 'o', 'l', '/'] ++ Nat.toDigits 10 k,
          protocol⟩) ∧
    (∀ routeId name description blocks protocol,
      (saveButtonProtocol routeId name description blocks protocol).description =
        serializeSlate (currentDescription description protocol)) ∧
    (∀ api state protocol now created k,
      api (mkUpsertRequest protocol) = .ok created → created.id = some k → k ≠ 0 →
      cacheGet (protocolUpsert api state protocol now).1.protocolCache k =
        some created ∧
      (protocolUpsert api state protocol now).2 = .ok ()) := by
  refine ⟨fun protocol h => ?_, fun protocol k h hk => ?_,
    fun routeId name description blocks protocol => rfl,
    fun api state protocol now created k hapi hid hk => ?_⟩
  · rcases h with h | h <;> simp [mkUpsertRequest, h]
  · simp [mkUpsertRequest, h, hk]
  · constructor
    · simp [protocolUpsert, hapi, hid, hk, cacheGet, cacheSet]
    · simp [protocolUpsert, hapi, hid, hk, Except.map]

/-- C5 (amended, witness): a create request without an id, an update request
for id 42, and a success response for id 42 landing in the cache. -/
theorem upsertRequest_spec_witness :
    mkUpsertRequest ⟨none, [], [], []⟩ =
      ⟨['P', 'O', 'S', 'T'], ['p', 'r', 'o', 't', 'o', 'c', 'o', 'l'],
        ⟨none, [], [], []⟩⟩ ∧
    mkUpsertRequest ⟨some 42, [], [], []⟩ =
      ⟨['P', 'U', 'T'],
        ['p', 'r', 'o', 't', 'o', 'c', 'o', 'l', '/'] ++ Nat.toDigits 10 42,
        ⟨some 42, [], [], []⟩⟩ ∧
    cacheGet (protocolUpsert (fun _ => .ok ⟨some 42, ['A'], [], []⟩)
        ⟨false, none, []⟩ ⟨none, [], [], []⟩ ['n']).1.protocolCache 42 =
      some ⟨some 42, ['A'], [], []⟩ :=
  ⟨upsertRequest_spec.1 ⟨none, [], [], []⟩ (Or.inl rfl),
   upsertRequest_spec.2.1 ⟨some 42, [], [], []⟩ 42 rfl (by decide),
   (upsertRequest_spec.2.2.2 (fun _ => .ok ⟨some 42, ['A'], [], []⟩)
      ⟨false, none, []⟩ ⟨none, [], [], []⟩ ['n'] ⟨some 42, ['A'], [], []⟩ 42
      rfl rfl (by decide)).1⟩
